import Mathlib

/-!
Verification of the image-to-PDF batch converter (convert_images_to_pdf.py).

The development shallowly embeds the program:

* `natural_sort_key`, with Python list comparison modelled by `cmpKey`
  (`none` models the `TypeError` raised when an `int` is compared with a `str`);
  Python string operations are modelled on Unicode codepoints, ASCII fragment.
* `resize_and_align_image`: the geometric core.  Python float arithmetic on
  ratios is modelled exactly over `ℚ`; Python `round` (round half to even) is
  `roundHE`.  Images are modelled by their pixel dimensions (`Img`); pixel
  content (resampling, text drawing, pasting) has no effect on any dimension
  and is outside the model.  `PIL.Image.resize` fails on a non-positive target
  size (spec section 4.2: zero or negative dimensions cause a hard failure),
  modelled by `pilResize` returning `Except.error`.
* `images_to_pdf`: the pipeline, as a pure function from the directory listing,
  the decoded image dimensions (`imgDims`), the file creation times (`ctime`)
  and the configuration to an `Except`-wrapped trace of observable events
  (`Event`).  Filesystem paths distinguish `os.path.join(directory, x)`
  (`PyPath.joined`) from bare relative names (`PyPath.rel`).  Division by zero
  (`A4_PAGE_SIZE[1] // images_per_page` with `images_per_page = 0`) is modelled
  by `Except.error PyErr.zeroDivision`.
* `cliImagesPerPage`: the interactive glue around `int(images_per_page)`
  (lines 179-187), which falls back to the default 1.
-/

/-- Round half to even: the semantics of Python `round` on the exact rational
value of the argument. -/
def roundHE (q : ℚ) : ℤ :=
  if q - ⌊q⌋ < 1/2 then ⌊q⌋
  else if 1/2 < q - ⌊q⌋ then ⌊q⌋ + 1
  else if ⌊q⌋ % 2 = 0 then ⌊q⌋ else ⌊q⌋ + 1

/-- ASCII decimal digit test on a codepoint (Python `str.isdigit` and the
regex class `\d`, ASCII fragment). -/
def pyIsDigitN (n : ℕ) : Bool := decide (48 ≤ n ∧ n ≤ 57)

/-- ASCII decimal digit test on a character. -/
def pyIsDigit (c : Char) : Bool := pyIsDigitN c.toNat

/-- ASCII lowercasing of a codepoint (Python `str.lower`, ASCII fragment). -/
def lowerN (n : ℕ) : ℕ := if 65 ≤ n ∧ n ≤ 90 then n + 32 else n

/-- Codepoint sequence of a string after `str.lower`. -/
def lowerCodes (s : List Char) : List ℕ := s.map (fun c => lowerN c.toNat)

/-- Numeric value of a run of ASCII digits (Python `int` on a digit string). -/
def digitsVal (t : List Char) : ℕ := t.foldl (fun a c => 10 * a + (c.toNat - 48)) 0

/-- Fuel-indexed worker for the regex split.  With enough fuel it computes
re.split("(\d+)", s): the alternating sequence of (possibly empty) runs of
non-digits and captured maximal runs of digits. -/
def reSplitAux : ℕ → List Char → List (List Char)
  | 0, _ => []
  | fuel + 1, s =>
    let t := s.takeWhile (fun c => !(pyIsDigit c))
    let r := s.dropWhile (fun c => !(pyIsDigit c))
    if r.isEmpty then [t]
    else t :: r.takeWhile pyIsDigit :: reSplitAux fuel (r.dropWhile pyIsDigit)

/-- re.split("(\d+)", s), from line 13 of the source. -/
def reSplitDigits (s : List Char) : List (List Char) := reSplitAux (s.length + 1) s

/-- A key element: Python produces a heterogeneous list of `int` and `str`. -/
inductive NTok where
  | num : ℕ → NTok
  | text : List ℕ → NTok
deriving DecidableEq, Repr

/-- Tokenise one part of the split, line 12 of the source:
`int(text) if text.isdigit() else text.lower()`.
(Python `"".isdigit()` is `False`, hence the non-emptiness guard.) -/
def toTok (t : List Char) : NTok :=
  if !t.isEmpty && t.all pyIsDigit then NTok.num (digitsVal t)
  else NTok.text (lowerCodes t)

/-- `natural_sort_key` from lines 10-13 of the source. -/
def natural_sort_key (s : List Char) : List NTok := (reSplitDigits s).map toTok

/-- Lexicographic comparison of codepoint sequences (Python `str` comparison). -/
def cmpCodes : List ℕ → List ℕ → Ordering
  | [], [] => Ordering.eq
  | [], _ :: _ => Ordering.lt
  | _ :: _, [] => Ordering.gt
  | a :: as, b :: bs =>
    match compare a b with
    | Ordering.eq => cmpCodes as bs
    | o => o

/-- Python comparison of two key elements; `none` models the `TypeError`
raised when an `int` is ordered against a `str`. -/
def cmpTok : NTok → NTok → Option Ordering
  | NTok.num a, NTok.num b => some (compare a b)
  | NTok.text a, NTok.text b => some (cmpCodes a b)
  | _, _ => none

/-- Python list comparison: scan for the first position where the elements are
not equal (`==` on an `int`/`str` pair is `False`, never an error), then order
the two elements there; a shorter list that is a prefix of the other is
smaller. -/
def cmpKey : List NTok → List NTok → Option Ordering
  | [], [] => some Ordering.eq
  | [], _ :: _ => some Ordering.lt
  | _ :: _, [] => some Ordering.gt
  | a :: as, b :: bs =>
    match cmpTok a b with
    | none => none
    | some Ordering.eq => cmpKey as bs
    | some o => some o

/-- Shape of every value of `natural_sort_key`: text tokens at even positions,
numeric tokens at odd positions, odd length.  Guarantees that Python list
comparison of two keys never reaches an `int`/`str` pair. -/
inductive KeyShape : List NTok → Prop
  | last : ∀ t, KeyShape [NTok.text t]
  | step : ∀ t n rest, KeyShape rest → KeyShape (NTok.text t :: NTok.num n :: rest)

/-- The strict order on filenames induced by `natural_sort_key`, used by
`images.sort(key=natural_sort_key)`. -/
def keyLtStr (a b : String) : Prop :=
  cmpKey (natural_sort_key a.toList) (natural_sort_key b.toList) = some Ordering.lt

instance keyLtStrDec : DecidableRel keyLtStr := fun a b =>
  inferInstanceAs (Decidable (cmpKey (natural_sort_key a.toList)
    (natural_sort_key b.toList) = some Ordering.lt))

/-- An in-memory image, abstracted to its pixel dimensions.  Pixel content
never affects a dimension and is outside the model. -/
structure Img where
  width : ℕ
  height : ℕ
deriving DecidableEq, Repr

/-- Python runtime errors reachable in the modelled fragment. -/
inductive PyErr where
  | zeroDivision
  | valueError
deriving DecidableEq, Repr

/-- Height reserved for the label, lines 29-33 of the source: the rendered
bounding-box height of the label text (abstract font metric `bboxH`,
standing for `bbox[3] - bbox[1]`) plus 5 pixels of padding; 0 with no label. -/
def labelHeight (label : Option String) (bboxH : ℕ) : ℕ :=
  match label with
  | some _ => bboxH + 5
  | none => 0

/-- `usable_width` from line 36 of the source. -/
def usableWidth (W m : ℕ) : ℤ := (W : ℤ) - 2 * (m : ℤ)

/-- `usable_height` from line 37 of the source. -/
def usableHeight (H m labelH : ℕ) : ℤ := (H : ℤ) - 2 * (m : ℤ) - (labelH : ℤ)

/-- Lines 39-44 of the source: the dimensions handed to `image.resize`.
The branch compares the image ratio with the ratio of the full cell
(`page_ratio`), not of the usable box. -/
def resizeDims (w h W H m labelH : ℕ) : ℤ × ℤ :=
  if ((W : ℚ) / (H : ℚ)) < ((w : ℚ) / (h : ℚ)) then
    (usableWidth W m, roundHE ((usableWidth W m : ℚ) / ((w : ℚ) / (h : ℚ))))
  else
    (roundHE ((usableHeight H m labelH : ℚ) * ((w : ℚ) / (h : ℚ))), usableHeight H m labelH)

/-- `PIL.Image.resize`: fails on a non-positive target dimension (spec
section 4.2: zero or negative dimensions passed to the resize step cause a
hard failure), otherwise yields an image of exactly the requested size. -/
def pilResize (_img : Img) (nw nh : ℤ) : Except PyErr Img :=
  if nw ≤ 0 ∨ nh ≤ 0 then Except.error PyErr.valueError
  else Except.ok ⟨nw.toNat, nh.toNat⟩

/-- `canvas.paste(resized_image, paste_position)`: pastes pixel content in
place; the canvas dimensions are unchanged (overflow is cropped). -/
def pilPaste (canvas _img : Img) (_pos : ℤ × ℤ) : Img := canvas

/-- `resize_and_align_image` from lines 15-68 of the source.  The font metric
`bboxH` abstracts `font.getbbox(label)`; text drawing (line 55) affects no
dimension.  `paste_position` uses Python floor division `//`. -/
def resize_and_align_image (image : Img) (page_size : ℕ × ℕ) (margin : ℕ)
    (label : Option String) (bboxH : ℕ) : Except PyErr Img :=
  let label_height := labelHeight label bboxH
  let d := resizeDims image.width image.height page_size.1 page_size.2 margin label_height
  match pilResize image d.1 d.2 with
  | Except.error e => Except.error e
  | Except.ok resized =>
    let canvas : Img := ⟨page_size.1, page_size.2⟩
    let paste_position : ℤ × ℤ :=
      (Int.fdiv ((page_size.1 : ℤ) - d.1) 2, (margin : ℤ) + (label_height : ℤ))
    Except.ok (pilPaste canvas resized paste_position)

/-- A filesystem path as the program builds it: either a bare relative name
(resolved against the process working directory) or `os.path.join(dir, name)`. -/
inductive PyPath where
  | rel : String → PyPath
  | joined : String → String → PyPath
deriving DecidableEq, Repr

/-- Observable effects of a run, in program order. -/
inductive Event where
  | composeImg : String → Option String → Event
  | writeTemp : PyPath → Event
  | mergerAppend : PyPath → Event
  | writeOutput : PyPath → Event
  | removeFile : PyPath → Event
  | printMsg : String → Event
deriving DecidableEq, Repr

/-- Recognised image extensions, line 82 of the source:
`f.lower().endswith((".png", ".jpg", ".jpeg", ".bmp", ".gif", ".tiff"))`. -/
def hasImageExt (f : String) : Bool :=
  [".png", ".jpg", ".jpeg", ".bmp", ".gif", ".tiff"].any
    (fun e => (lowerCodes e.toList).isSuffixOf (lowerCodes f.toList))

/-- Name of the n-th temporary page artifact, line 138 of the source. -/
def tempName (n : ℕ) : String := "temp_page_" ++ Nat.repr n ++ ".pdf"

/-- Lines 89-93 of the source: stable sort of the image names, by creation
time of the joined path (abstracted by `ctime`) or by `natural_sort_key`. -/
def sortedImages (images : List String) (ctime : String → ℕ) (sort_by_time : Bool) :
    List String :=
  if sort_by_time then List.insertionSort (fun a b => ctime a ≤ ctime b) images
  else List.insertionSort (fun a b => ¬ keyLtStr b a) images

/-- The per-image loop, lines 109-142 of the source.  Arguments after the file
list: `i` (the `enumerate` index), `image_counter`, `page_number`.  Returns the
events of the loop together with the final `page_number`. -/
def pipelineLoop (imgDims : String → ℕ × ℕ) (cellW cellH : ℕ) (k : ℕ) (margin : ℕ)
    (bboxH : ℕ) (label_images : Bool) :
    List String → ℕ → ℕ → ℕ → Except PyErr (List Event × ℕ)
  | [], _, _, pageNum => Except.ok ([], pageNum)
  | f :: rest, i, counter, pageNum =>
    let label : Option String :=
      if label_images then some ("Question " ++ Nat.repr counter) else none
    match resize_and_align_image ⟨(imgDims f).1, (imgDims f).2⟩ (cellW, cellH)
        margin label bboxH with
    | Except.error e => Except.error e
    | Except.ok _cell =>
      if (i + 1) % k == 0 || rest.isEmpty then
        match pipelineLoop imgDims cellW cellH k margin bboxH label_images
            rest (i + 1) (counter + 1) (pageNum + 1) with
        | Except.error e => Except.error e
        | Except.ok (es, fin) =>
          Except.ok (Event.composeImg f label
            :: Event.writeTemp (PyPath.rel (tempName pageNum))
            :: Event.mergerAppend (PyPath.rel (tempName pageNum)) :: es, fin)
      else
        match pipelineLoop imgDims cellW cellH k margin bboxH label_images
            rest (i + 1) (counter + 1) pageNum with
        | Except.error e => Except.error e
        | Except.ok (es, fin) => Except.ok (Event.composeImg f label :: es, fin)

/-- Lines 144-159 of the source: write the merged PDF into the target
directory, remove the temporary page PDFs `temp_page_1.pdf` ..
`temp_page_(page_number - 1).pdf` (bare relative names), report, and
optionally delete the source images (joined paths). -/
def postEvents (directory : String) (delete_images : Bool) (sorted : List String)
    (finalPage : ℕ) : List Event :=
  Event.writeOutput (PyPath.joined directory "combined_output.pdf")
    :: ((List.range' 1 (finalPage - 1)).map (fun n => Event.removeFile (PyPath.rel (tempName n)))
      ++ Event.printMsg ("PDF created successfully at: " ++ directory ++ "/combined_output.pdf")
        :: (if delete_images then
              (sorted.map (fun f => Event.removeFile (PyPath.joined directory f)))
                ++ [Event.printMsg "Original images have been deleted."]
            else []))

/-- `images_to_pdf` from lines 70-159 of the source, as a pure function from
the directory listing, the decoded image dimensions, the creation times and
the configuration to the trace of observable events.  `842 / images_per_page`
is `A4_PAGE_SIZE[1] // images_per_page` (line 96); with `images_per_page = 0`
Python raises `ZeroDivisionError` there, after the empty check and the sort. -/
def images_to_pdf (listing : List String) (imgDims : String → ℕ × ℕ)
    (ctime : String → ℕ) (directory : String) (images_per_page : ℕ)
    (delete_images : Bool) (margin : ℕ) (label_images : Bool) (sort_by_time : Bool)
    (bboxH : ℕ) : Except PyErr (List Event) :=
  let images := listing.filter hasImageExt
  if images.isEmpty then Except.ok [Event.printMsg "No images found in the directory."]
  else
    let sorted := sortedImages images ctime sort_by_time
    if images_per_page = 0 then Except.error PyErr.zeroDivision
    else
      match pipelineLoop imgDims 595 (842 / images_per_page) images_per_page margin
          bboxH label_images sorted 0 1 1 with
      | Except.error e => Except.error e
      | Except.ok (es, finalPage) =>
        Except.ok (es ++ postEvents directory delete_images sorted finalPage)

/-- Is the event an append of a one-page artifact to the `PdfMerger`? -/
def isMergerAppend : Event → Bool
  | Event.mergerAppend _ => true
  | _ => false

/-- Number of one-page artifacts appended to the merger, which is the page
count of the merged output PDF. -/
def countMergerAppends (es : List Event) : ℕ := es.countP isMergerAppend

/-- The composition calls of a trace: image file name and label, in order. -/
def composePairs (es : List Event) : List (String × Option String) :=
  es.filterMap (fun e =>
    match e with
    | Event.composeImg f lab => some (f, lab)
    | _ => none)

/-- Python `int(s)` on a string: optional surrounding whitespace, optional
sign, at least one ASCII digit; `none` models `ValueError`. -/
def parseDigits (l : List Char) : Option ℕ :=
  if !l.isEmpty && l.all pyIsDigit then some (digitsVal l) else none

/-- Python `int` applied to the raw prompt answer. -/
def pyInt? (s : String) : Option ℤ :=
  match s.trim.toList with
  | [] => none
  | '-' :: rest => (parseDigits rest).map (fun n => -(n : ℤ))
  | '+' :: rest => (parseDigits rest).map (fun n => (n : ℤ))
  | l => (parseDigits l).map (fun n => (n : ℤ))

/-- Lines 179-187 of the source: the interactive glue parses the answer with
`int`, raises `ValueError` when the value is below 1, and the surrounding
`except ValueError` falls back to the default 1 in both failure cases. -/
def cliImagesPerPage (s : String) : ℤ :=
  match pyInt? s with
  | none => 1
  | some v => if v < 1 then 1 else v

/-- Image dimensions used by the concrete witness runs. -/
def exDims : String → ℕ × ℕ := fun _ => (100, 200)

/-- Creation times used by the concrete witness runs. -/
def exCtime : String → ℕ := fun _ => 0

/-- Concrete run: two images, two per page. -/
def exTrace1 : List Event :=
  (images_to_pdf ["b.png", "a.png", "c.txt"] exDims exCtime "d" 2 false 0 false false 0).toOption.getD []

/-- Concrete run: two images, one per page, labels on. -/
def exTrace2 : List Event :=
  (images_to_pdf ["b.png", "a.png"] exDims exCtime "d" 1 false 0 true false 0).toOption.getD []

/-- Concrete run: two images, deletion of the sources requested. -/
def exTrace3 : List Event :=
  (images_to_pdf ["b.png", "a.png"] exDims exCtime "d" 1 true 0 false false 0).toOption.getD []

/-- Concrete run: three images, two per page, deletion requested. -/
def exTrace4 : List Event :=
  (images_to_pdf ["a2.png", "a10.png", "a1.png"] exDims exCtime "dir" 2 true 3 false false 0).toOption.getD []

/-- Case split of `resizeDims`, width-constrained branch (line 39 of the
source: `img_ratio > page_ratio`). -/
theorem resizeDims_of_lt (w h W H m labelH : ℕ)
    (hbr : ((W : ℚ) / (H : ℚ)) < ((w : ℚ) / (h : ℚ))) :
    resizeDims w h W H m labelH =
      (usableWidth W m, roundHE ((usableWidth W m : ℚ) / ((w : ℚ) / (h : ℚ)))) := by
  unfold resizeDims
  rw [if_pos hbr]

/-- Case split of `resizeDims`, height-constrained branch. -/
theorem resizeDims_of_ge (w h W H m labelH : ℕ)
    (hbr : ¬ ((W : ℚ) / (H : ℚ)) < ((w : ℚ) / (h : ℚ))) :
    resizeDims w h W H m labelH =
      (roundHE ((usableHeight H m labelH : ℚ) * ((w : ℚ) / (h : ℚ))),
        usableHeight H m labelH) := by
  unfold resizeDims
  rw [if_neg hbr]

/-- Round half to even differs from its argument by at most one half. -/
theorem abs_roundHE_sub (q : ℚ) : |(roundHE q : ℚ) - q| ≤ 1/2 := by
  have h1 : (⌊q⌋ : ℚ) ≤ q := Int.floor_le q
  have h2 : q < ⌊q⌋ + 1 := Int.lt_floor_add_one q
  unfold roundHE
  split_ifs with ha hb hc
  · rw [abs_le]
    constructor <;> linarith
  · rw [abs_le]
    push_cast
    constructor <;> linarith
  · rw [abs_le]
    constructor <;> linarith
  · rw [abs_le]
    push_cast
    constructor <;> linarith

/-- `roundHE` never overshoots an integer bound. -/
theorem roundHE_le_of_le (q : ℚ) (c : ℤ) (h : q ≤ (c : ℚ)) : roundHE q ≤ c := by
  have h1 := (abs_le.mp (abs_roundHE_sub q)).2
  by_contra hc
  push_neg at hc
  have : (c : ℚ) + 1 ≤ (roundHE q : ℚ) := by exact_mod_cast Int.add_one_le_iff.mpr hc
  linarith

/-- `roundHE` of a non-positive rational is non-positive. -/
theorem roundHE_nonpos (q : ℚ) (h : q ≤ 0) : roundHE q ≤ 0 :=
  roundHE_le_of_le q 0 (by exact_mod_cast h)

/-- C2 (amended): the dimensions computed by `resize_and_align_image` preserve
the source aspect ratio within one pixel of rounding; the usable-box bounds
hold when margin and label height are 0 (then the usable box has the cell's
aspect ratio).  In general the branch compares against the full cell ratio, so
the non-constrained dimension can exceed its usable bound (see the
counterexample `resizeDims_bounds_cex`). -/
theorem resizeDims_aspect_and_bounds (w h W H m labelH : ℕ)
    (hw : 1 ≤ w) (hh : 1 ≤ h) (_hW : 1 ≤ W) (hH : 1 ≤ H) :
    (|((resizeDims w h W H m labelH).2 : ℚ) -
        ((resizeDims w h W H m labelH).1 : ℚ) * (h : ℚ) / (w : ℚ)| ≤ 1
      ∨ |((resizeDims w h W H m labelH).1 : ℚ) -
        ((resizeDims w h W H m labelH).2 : ℚ) * (w : ℚ) / (h : ℚ)| ≤ 1)
    ∧ (resizeDims w h W H 0 0).1 ≤ (W : ℤ) ∧ (resizeDims w h W H 0 0).2 ≤ (H : ℤ) := by
  have hwq : (0 : ℚ) < (w : ℚ) := by exact_mod_cast hw
  have hhq : (0 : ℚ) < (h : ℚ) := by exact_mod_cast hh
  have hHq : (0 : ℚ) < (H : ℚ) := by exact_mod_cast hH
  have hr : (0 : ℚ) < (w : ℚ) / (h : ℚ) := div_pos hwq hhq
  have huw : usableWidth W 0 = (W : ℤ) := by
    unfold usableWidth
    simp
  have huh : usableHeight H 0 0 = (H : ℤ) := by
    unfold usableHeight
    simp
  constructor
  · by_cases hbr : ((W : ℚ) / (H : ℚ)) < ((w : ℚ) / (h : ℚ))
    · left
      rw [resizeDims_of_lt w h W H m labelH hbr]
      have hx : (usableWidth W m : ℚ) * (h : ℚ) / (w : ℚ) =
          (usableWidth W m : ℚ) / ((w : ℚ) / (h : ℚ)) := by
        field_simp
      dsimp only
      rw [hx]
      have := abs_roundHE_sub ((usableWidth W m : ℚ) / ((w : ℚ) / (h : ℚ)))
      linarith
    · right
      rw [resizeDims_of_ge w h W H m labelH hbr]
      have hx : (usableHeight H m labelH : ℚ) * (w : ℚ) / (h : ℚ) =
          (usableHeight H m labelH : ℚ) * ((w : ℚ) / (h : ℚ)) := by
        field_simp
      dsimp only
      rw [hx]
      have := abs_roundHE_sub ((usableHeight H m labelH : ℚ) * ((w : ℚ) / (h : ℚ)))
      linarith
  · by_cases hbr : ((W : ℚ) / (H : ℚ)) < ((w : ℚ) / (h : ℚ))
    · rw [resizeDims_of_lt w h W H 0 0 hbr]
      constructor
      · dsimp only
        rw [huw]
      · dsimp only
        apply roundHE_le_of_le
        rw [huw]
        have hlt : (W : ℚ) < (w : ℚ) / (h : ℚ) * (H : ℚ) := (div_lt_iff₀ hHq).mp hbr
        rw [div_le_iff₀ hr]
        push_cast
        linarith [mul_comm ((w : ℚ) / (h : ℚ)) (H : ℚ)]
    · rw [resizeDims_of_ge w h W H 0 0 hbr]
      constructor
      · dsimp only
        apply roundHE_le_of_le
        rw [huh]
        have hbr' : (w : ℚ) / (h : ℚ) ≤ (W : ℚ) / (H : ℚ) := not_lt.mp hbr
        have h1 : (H : ℚ) * ((w : ℚ) / (h : ℚ)) ≤ (H : ℚ) * ((W : ℚ) / (H : ℚ)) :=
          mul_le_mul_of_nonneg_left hbr' (le_of_lt hHq)
        have h2 : (H : ℚ) * ((W : ℚ) / (H : ℚ)) = (W : ℚ) := by
          field_simp
        push_cast
        linarith
      · dsimp only
        rw [huh]

/-- C2 witness: the theorem applied to a 160×100 image, cell 595×421,
margin 100, no label. -/
theorem resizeDims_aspect_and_bounds_witness :
    (|((resizeDims 160 100 595 421 100 0).2 : ℚ) -
        ((resizeDims 160 100 595 421 100 0).1 : ℚ) * ((100 : ℕ) : ℚ) / ((160 : ℕ) : ℚ)| ≤ 1
      ∨ |((resizeDims 160 100 595 421 100 0).1 : ℚ) -
        ((resizeDims 160 100 595 421 100 0).2 : ℚ) * ((160 : ℕ) : ℚ) / ((100 : ℕ) : ℚ)| ≤ 1)
    ∧ (resizeDims 160 100 595 421 0 0).1 ≤ ((595 : ℕ) : ℤ)
    ∧ (resizeDims 160 100 595 421 0 0).2 ≤ ((421 : ℕ) : ℤ) :=
  resizeDims_aspect_and_bounds 160 100 595 421 100 0
    (by decide) (by decide) (by decide) (by decide)

/-- C2 counterexample: image 160×100 in cell 595×421 with margin 100. The
image ratio 1.6 lies between the usable-box ratio and the cell ratio, so the
code picks the width-constrained branch and the computed height 247 exceeds
the usable height 221. -/
theorem resizeDims_bounds_cex :
    resizeDims 160 100 595 421 100 0 = (395, 247)
    ∧ ¬ ((resizeDims 160 100 595 421 100 0).2 ≤ usableHeight 421 100 0) := by
  constructor
  · with_unfolding_all decide
  · with_unfolding_all decide

/-- Evaluation form of `resize_and_align_image`: it either propagates the
resize failure or returns the `Image.new` canvas of exactly the cell size. -/
theorem resize_and_align_eq (image : Img) (page_size : ℕ × ℕ) (margin : ℕ)
    (label : Option String) (bboxH : ℕ) :
    resize_and_align_image image page_size margin label bboxH =
      match pilResize image
          (resizeDims image.width image.height page_size.1 page_size.2 margin
            (labelHeight label bboxH)).1
          (resizeDims image.width image.height page_size.1 page_size.2 margin
            (labelHeight label bboxH)).2 with
      | Except.error e => Except.error e
      | Except.ok _ => Except.ok ⟨page_size.1, page_size.2⟩ := rfl

/-- C3: whenever `resize_and_align_image` completes without error, the
returned canvas has exactly the requested cell dimensions, independently of
the input image's dimensions or aspect ratio (the function returns the
`Image.new` canvas of size `page_size`; pasting does not change its size). -/
theorem resize_and_align_canvas_size (image : Img) (page_size : ℕ × ℕ) (margin : ℕ)
    (label : Option String) (bboxH : ℕ) (out : Img)
    (hok : resize_and_align_image image page_size margin label bboxH = Except.ok out) :
    out.width = page_size.1 ∧ out.height = page_size.2 := by
  rw [resize_and_align_eq] at hok
  split at hok
  · exact absurd hok (by simp)
  · rw [Except.ok.injEq] at hok
    rw [← hok]
    exact ⟨rfl, rfl⟩

/-- C3 witness: a 100×200 image composed into a 595×421 cell with margin 10. -/
theorem resize_and_align_canvas_size_witness :
    (⟨595, 421⟩ : Img).width = ((595, 421) : ℕ × ℕ).1
    ∧ (⟨595, 421⟩ : Img).height = ((595, 421) : ℕ × ℕ).2 :=
  resize_and_align_canvas_size ⟨100, 200⟩ (595, 421) 10 none 0 ⟨595, 421⟩
    (by with_unfolding_all rfl)

/-- C5 (amended): the code performs no clamping.  When the usable width and
height are zero or negative, the non-positive computed dimensions are passed
unchanged to the resize step (no minimum of 1 pixel is applied) and the
operation fails hard with a `ValueError`. -/
theorem resize_no_clamp (w h W H m bboxH : ℕ) (label : Option String)
    (huw : usableWidth W m ≤ 0)
    (huh : usableHeight H m (labelHeight label bboxH) ≤ 0) :
    (resizeDims w h W H m (labelHeight label bboxH)).1 ≤ 0
    ∧ (resizeDims w h W H m (labelHeight label bboxH)).2 ≤ 0
    ∧ resize_and_align_image ⟨w, h⟩ (W, H) m label bboxH = Except.error PyErr.valueError := by
  have hwq : (0 : ℚ) ≤ (w : ℚ) := Nat.cast_nonneg w
  have hhq : (0 : ℚ) ≤ (h : ℚ) := Nat.cast_nonneg h
  have hr : (0 : ℚ) ≤ (w : ℚ) / (h : ℚ) := div_nonneg hwq hhq
  have hdims : (resizeDims w h W H m (labelHeight label bboxH)).1 ≤ 0
      ∧ (resizeDims w h W H m (labelHeight label bboxH)).2 ≤ 0 := by
    by_cases hbr : ((W : ℚ) / (H : ℚ)) < ((w : ℚ) / (h : ℚ))
    · rw [resizeDims_of_lt w h W H m (labelHeight label bboxH) hbr]
      refine ⟨huw, ?_⟩
      dsimp only
      apply roundHE_nonpos
      apply div_nonpos_of_nonpos_of_nonneg _ hr
      exact_mod_cast huw
    · rw [resizeDims_of_ge w h W H m (labelHeight label bboxH) hbr]
      refine ⟨?_, huh⟩
      dsimp only
      apply roundHE_nonpos
      apply mul_nonpos_of_nonpos_of_nonneg _ hr
      exact_mod_cast huh
  refine ⟨hdims.1, hdims.2, ?_⟩
  rw [resize_and_align_eq]
  have hres : pilResize ⟨w, h⟩
      (resizeDims w h W H m (labelHeight label bboxH)).1
      (resizeDims w h W H m (labelHeight label bboxH)).2 = Except.error PyErr.valueError := by
    unfold pilResize
    rw [if_pos (Or.inl hdims.1)]
  dsimp only
  rw [hres]

/-- C5 witness: cell 100×100 with margin 60 leaves usable size -20×-20; the
theorem applies and the run fails with a `ValueError`. -/
theorem resize_no_clamp_witness :
    (resizeDims 100 100 100 100 60 (labelHeight none 0)).1 ≤ 0
    ∧ (resizeDims 100 100 100 100 60 (labelHeight none 0)).2 ≤ 0
    ∧ resize_and_align_image ⟨100, 100⟩ (100, 100) 60 none 0 =
        Except.error PyErr.valueError :=
  resize_no_clamp 100 100 100 100 60 0 none
    (by with_unfolding_all decide) (by with_unfolding_all decide)

/-- C5 counterexample: with a 100×100 image, cell 100×100 and margin 60, the
dimensions passed to the resize step are (-20, -20) — not clamped to a minimum
of 1 pixel — and the operation fails hard. -/
theorem resize_no_clamp_cex :
    resizeDims 100 100 100 100 60 0 = (-20, -20)
    ∧ resize_and_align_image ⟨100, 100⟩ (100, 100) 60 none 0 =
        Except.error PyErr.valueError := by
  constructor
  · with_unfolding_all decide
  · with_unfolding_all rfl

/-- The first element surviving `dropWhile p` falsifies `p`. -/
theorem dropWhile_head_false (p : Char → Bool) :
    ∀ (s : List Char) (c : Char) (rest : List Char),
      s.dropWhile p = c :: rest → p c = false := by
  intro s
  induction s with
  | nil =>
    intro c rest h
    simp [List.dropWhile] at h
  | cons a s ih =>
    intro c rest h
    rw [List.dropWhile_cons] at h
    by_cases hp : p a
    · rw [if_pos hp] at h
      exact ih c rest h
    · rw [if_neg hp] at h
      cases h
      simpa using hp

/-- `dropWhile` never lengthens a list. -/
theorem length_dropWhile_le' (p : Char → Bool) :
    ∀ s : List Char, (s.dropWhile p).length ≤ s.length := by
  intro s
  induction s with
  | nil => simp [List.dropWhile]
  | cons a s ih =>
    rw [List.dropWhile_cons]
    by_cases hp : p a
    · rw [if_pos hp]
      exact Nat.le_succ_of_le ih
    · rw [if_neg hp]

/-- When the remainder after the leading non-digit run is non-empty, it starts
with a digit. -/
theorem reSplit_rest_head (s : List Char)
    (hr : ¬ (s.dropWhile (fun c => !(pyIsDigit c))).isEmpty = true) :
    ∃ c rest, s.dropWhile (fun c => !(pyIsDigit c)) = c :: rest ∧ pyIsDigit c = true := by
  cases hd : s.dropWhile (fun c => !(pyIsDigit c)) with
  | nil => rw [hd] at hr; simp at hr
  | cons c rest =>
    refine ⟨c, rest, rfl, ?_⟩
    have := dropWhile_head_false (fun c => !(pyIsDigit c)) s c rest hd
    simpa using this

/-- The recursive argument of the split is strictly shorter. -/
theorem reSplit_step_lt (s : List Char)
    (hr : ¬ (s.dropWhile (fun c => !(pyIsDigit c))).isEmpty = true) :
    ((s.dropWhile (fun c => !(pyIsDigit c))).dropWhile pyIsDigit).length < s.length := by
  obtain ⟨c, rest, hd, hdig⟩ := reSplit_rest_head s hr
  rw [hd, List.dropWhile_cons, if_pos hdig]
  have h1 : (rest.dropWhile pyIsDigit).length ≤ rest.length := length_dropWhile_le' _ _
  have h2 : (c :: rest).length ≤ s.length := by
    rw [← hd]
    exact length_dropWhile_le' _ _
  simp only [List.length_cons] at h2
  omega

/-- The split worker ignores any sufficient amount of fuel. -/
theorem reSplitAux_congr :
    ∀ (f1 f2 : ℕ) (s : List Char), s.length < f1 → s.length < f2 →
      reSplitAux f1 s = reSplitAux f2 s := by
  intro f1
  induction f1 with
  | zero =>
    intro f2 s h1
    omega
  | succ f1 ih =>
    intro f2 s h1 h2
    cases f2 with
    | zero => omega
    | succ f2 =>
      by_cases hr : (s.dropWhile (fun c => !(pyIsDigit c))).isEmpty = true
      · simp only [reSplitAux, hr, if_true]
      · simp only [reSplitAux, hr, if_false]
        have hlt := reSplit_step_lt s hr
        rw [ih f2 ((s.dropWhile (fun c => !(pyIsDigit c))).dropWhile pyIsDigit)
          (by omega) (by omega)]

/-- Unfolding equation of the regex split. -/
theorem reSplitDigits_eq (s : List Char) :
    reSplitDigits s =
      if (s.dropWhile (fun c => !(pyIsDigit c))).isEmpty then
        [s.takeWhile (fun c => !(pyIsDigit c))]
      else
        s.takeWhile (fun c => !(pyIsDigit c))
          :: (s.dropWhile (fun c => !(pyIsDigit c))).takeWhile pyIsDigit
          :: reSplitDigits ((s.dropWhile (fun c => !(pyIsDigit c))).dropWhile pyIsDigit) := by
  have h1 : reSplitDigits s =
      if (s.dropWhile (fun c => !(pyIsDigit c))).isEmpty then
        [s.takeWhile (fun c => !(pyIsDigit c))]
      else
        s.takeWhile (fun c => !(pyIsDigit c))
          :: (s.dropWhile (fun c => !(pyIsDigit c))).takeWhile pyIsDigit
          :: reSplitAux s.length ((s.dropWhile (fun c => !(pyIsDigit c))).dropWhile pyIsDigit) :=
    rfl
  rw [h1]
  by_cases hr : (s.dropWhile (fun c => !(pyIsDigit c))).isEmpty = true
  · rw [if_pos hr, if_pos hr]
  · rw [if_neg hr, if_neg hr]
    have hlt := reSplit_step_lt s hr
    rw [reSplitAux_congr s.length
      (((s.dropWhile (fun c => !(pyIsDigit c))).dropWhile pyIsDigit).length + 1)
      ((s.dropWhile (fun c => !(pyIsDigit c))).dropWhile pyIsDigit)
      (by omega) (by omega)]
    rfl

/-- A part free of digits is tokenised as lowercased text. -/
theorem toTok_text (t : List Char) (ht : ∀ c ∈ t, pyIsDigit c = false) :
    toTok t = NTok.text (lowerCodes t) := by
  unfold toTok
  cases t with
  | nil => simp
  | cons c rest =>
    have hc := ht c (by simp)
    simp [List.all_cons, hc]

/-- A non-empty all-digit part is tokenised as its numeric value. -/
theorem toTok_num (t : List Char) (hne : ¬ t.isEmpty = true)
    (ht : ∀ c ∈ t, pyIsDigit c = true) :
    toTok t = NTok.num (digitsVal t) := by
  unfold toTok
  rw [if_pos]
  rw [Bool.and_eq_true]
  exact ⟨by simpa using hne, List.all_eq_true.mpr ht⟩

/-- Every key produced by `natural_sort_key` alternates text and numeric
tokens, starting and ending with a text token. -/
theorem keyShape_aux : ∀ (n : ℕ) (s : List Char), s.length ≤ n →
    KeyShape (natural_sort_key s) := by
  intro n
  induction n with
  | zero =>
    intro s hs
    have h0 : s = [] := List.length_eq_zero.mp (Nat.le_zero.mp hs)
    subst h0
    have h1 : natural_sort_key [] = [NTok.text []] := rfl
    rw [h1]
    exact KeyShape.last []
  | succ n ih =>
    intro s hs
    have htext : ∀ c ∈ s.takeWhile (fun c => !(pyIsDigit c)), pyIsDigit c = false := by
      intro c hc
      have := List.mem_takeWhile_imp hc
      simpa using this
    by_cases hr : (s.dropWhile (fun c => !(pyIsDigit c))).isEmpty = true
    · unfold natural_sort_key
      rw [reSplitDigits_eq, if_pos hr, List.map_singleton, toTok_text _ htext]
      exact KeyShape.last _
    · obtain ⟨c, rest, hd, hdig⟩ := reSplit_rest_head s hr
      have hdne : ¬ ((s.dropWhile (fun c => !(pyIsDigit c))).takeWhile pyIsDigit).isEmpty = true := by
        rw [hd, List.takeWhile_cons, if_pos hdig]
        simp
      have hdall : ∀ x ∈ (s.dropWhile (fun c => !(pyIsDigit c))).takeWhile pyIsDigit,
          pyIsDigit x = true := fun x hx => List.mem_takeWhile_imp hx
      unfold natural_sort_key
      rw [reSplitDigits_eq, if_neg hr, List.map_cons, List.map_cons,
        toTok_text _ htext, toTok_num _ hdne hdall]
      exact KeyShape.step _ _ _
        (ih ((s.dropWhile (fun c => !(pyIsDigit c))).dropWhile pyIsDigit)
          (by have := reSplit_step_lt s hr; omega))

/-- Specialisation of `keyShape_aux`. -/
theorem keyShape_natKey (s : List Char) : KeyShape (natural_sort_key s) :=
  keyShape_aux s.length s le_rfl

/-- Python comparison of two well-shaped keys never reaches an `int`/`str`
pair, hence never raises. -/
theorem cmpKey_isSome_of_shapes :
    ∀ k1, KeyShape k1 → ∀ k2, KeyShape k2 → (cmpKey k1 k2).isSome = true := by
  intro k1 h1
  induction h1 with
  | last t =>
    intro k2 h2
    cases h2 with
    | last u =>
      cases hc : cmpCodes t u <;> simp [cmpKey, cmpTok, hc]
    | step u n rest hrest =>
      cases hc : cmpCodes t u <;> simp [cmpKey, cmpTok, hc]
  | step t n rest hrest ih =>
    intro k2 h2
    cases h2 with
    | last u =>
      cases hc : cmpCodes t u <;> simp [cmpKey, cmpTok, hc]
    | step u m rest2 hrest2 =>
      cases hc : cmpCodes t u
      case eq =>
        cases hcn : compare n m <;> simp [cmpKey, cmpTok, hc, hcn]
        case eq => exact ih rest2 hrest2
      case lt => simp [cmpKey, cmpTok, hc]
      case gt => simp [cmpKey, cmpTok, hc]

/-- Lowercasing does not change digit-ness of a codepoint. -/
theorem pyIsDigitN_lowerN (n : ℕ) : pyIsDigitN (lowerN n) = pyIsDigitN n := by
  unfold pyIsDigitN lowerN
  split_ifs with h
  · exact decide_eq_decide.mpr (iff_of_false (by omega) (by omega))
  · rfl

/-- Lowercasing fixes digit codepoints. -/
theorem lowerN_of_digit (n : ℕ) (h : pyIsDigitN n = true) : lowerN n = n := by
  unfold pyIsDigitN at h
  rw [decide_eq_true_eq] at h
  unfold lowerN
  rw [if_neg]
  omega

/-- `lowerCodes` commutes with taking the leading non-digit run. -/
theorem lowerCodes_takeWhile_nondigit (s : List Char) :
    lowerCodes (s.takeWhile (fun c => !(pyIsDigit c))) =
      (lowerCodes s).takeWhile (fun m => !(pyIsDigitN m)) := by
  have hq : (fun c : Char => !(pyIsDigit c)) =
      ((fun m => !(pyIsDigitN m)) ∘ (fun c : Char => lowerN c.toNat)) := by
    funext c
    show (!(pyIsDigit c)) = (!(pyIsDigitN (lowerN c.toNat)))
    rw [pyIsDigitN_lowerN]
    rfl
  show (s.takeWhile (fun c => !(pyIsDigit c))).map (fun c => lowerN c.toNat) = _
  rw [hq, ← List.takeWhile_map]
  rfl

/-- `lowerCodes` commutes with dropping the leading non-digit run. -/
theorem lowerCodes_dropWhile_nondigit (s : List Char) :
    lowerCodes (s.dropWhile (fun c => !(pyIsDigit c))) =
      (lowerCodes s).dropWhile (fun m => !(pyIsDigitN m)) := by
  have hq : (fun c : Char => !(pyIsDigit c)) =
      ((fun m => !(pyIsDigitN m)) ∘ (fun c : Char => lowerN c.toNat)) := by
    funext c
    show (!(pyIsDigit c)) = (!(pyIsDigitN (lowerN c.toNat)))
    rw [pyIsDigitN_lowerN]
    rfl
  show (s.dropWhile (fun c => !(pyIsDigit c))).map (fun c => lowerN c.toNat) = _
  rw [hq, ← List.dropWhile_map]
  rfl

/-- `lowerCodes` commutes with taking the leading digit run. -/
theorem lowerCodes_takeWhile_digit (s : List Char) :
    lowerCodes (s.takeWhile pyIsDigit) = (lowerCodes s).takeWhile pyIsDigitN := by
  have hq : pyIsDigit = (pyIsDigitN ∘ (fun c : Char => lowerN c.toNat)) := by
    funext c
    show pyIsDigit c = pyIsDigitN (lowerN c.toNat)
    rw [pyIsDigitN_lowerN]
    rfl
  show (s.takeWhile pyIsDigit).map (fun c => lowerN c.toNat) = _
  rw [hq, ← List.takeWhile_map]
  rfl

/-- `lowerCodes` commutes with dropping the leading digit run. -/
theorem lowerCodes_dropWhile_digit (s : List Char) :
    lowerCodes (s.dropWhile pyIsDigit) = (lowerCodes s).dropWhile pyIsDigitN := by
  have hq : pyIsDigit = (pyIsDigitN ∘ (fun c : Char => lowerN c.toNat)) := by
    funext c
    show pyIsDigit c = pyIsDigitN (lowerN c.toNat)
    rw [pyIsDigitN_lowerN]
    rfl
  show (s.dropWhile pyIsDigit).map (fun c => lowerN c.toNat) = _
  rw [hq, ← List.dropWhile_map]
  rfl

/-- Two all-digit runs with the same case-folded codepoints have the same
numeric value (lowercasing fixes digits, and the value is a fold over the
codepoints). -/
theorem digitsVal_eq_of_lowerCodes (d1 d2 : List Char)
    (h1 : ∀ c ∈ d1, pyIsDigit c = true) (h2 : ∀ c ∈ d2, pyIsDigit c = true)
    (hl : lowerCodes d1 = lowerCodes d2) : digitsVal d1 = digitsVal d2 := by
  have e : ∀ (d : List Char), (∀ c ∈ d, pyIsDigit c = true) →
      lowerCodes d = d.map Char.toNat := by
    intro d hd
    exact List.map_congr_left (fun c hc => lowerN_of_digit c.toNat (hd c hc))
  have hm : d1.map Char.toNat = d2.map Char.toNat := by
    rw [← e d1 h1, ← e d2 h2, hl]
  have f1 : digitsVal d1 = (d1.map Char.toNat).foldl (fun a n => 10 * a + (n - 48)) 0 := by
    unfold digitsVal
    rw [List.foldl_map]
  have f2 : digitsVal d2 = (d2.map Char.toNat).foldl (fun a n => 10 * a + (n - 48)) 0 := by
    unfold digitsVal
    rw [List.foldl_map]
  rw [f1, f2, hm]

/-- Keys are invariant under case: two strings with the same case-folded
codepoints have the same `natural_sort_key`. -/
theorem natKey_lower_congr :
    ∀ (n : ℕ) (s1 s2 : List Char), s1.length ≤ n →
      lowerCodes s1 = lowerCodes s2 → natural_sort_key s1 = natural_sort_key s2 := by
  intro n
  induction n with
  | zero =>
    intro s1 s2 hn hl
    have e1 : s1 = [] := List.length_eq_zero.mp (Nat.le_zero.mp hn)
    subst e1
    have e2 : s2 = [] := by
      have h0 : lowerCodes s2 = [] := by
        rw [← hl]
        rfl
      exact List.map_eq_nil_iff.mp h0
    subst e2
    rfl
  | succ n ih =>
    intro s1 s2 hn hl
    have htake : lowerCodes (s1.takeWhile (fun c => !(pyIsDigit c))) =
        lowerCodes (s2.takeWhile (fun c => !(pyIsDigit c))) := by
      rw [lowerCodes_takeWhile_nondigit, lowerCodes_takeWhile_nondigit, hl]
    have hdrop : lowerCodes (s1.dropWhile (fun c => !(pyIsDigit c))) =
        lowerCodes (s2.dropWhile (fun c => !(pyIsDigit c))) := by
      rw [lowerCodes_dropWhile_nondigit, lowerCodes_dropWhile_nondigit, hl]
    have hlen : (s1.dropWhile (fun c => !(pyIsDigit c))).length =
        (s2.dropWhile (fun c => !(pyIsDigit c))).length := by
      have h0 : (lowerCodes (s1.dropWhile (fun c => !(pyIsDigit c)))).length =
          (lowerCodes (s2.dropWhile (fun c => !(pyIsDigit c)))).length := by
        rw [hdrop]
      unfold lowerCodes at h0
      simpa using h0
    have ht1 : ∀ c ∈ s1.takeWhile (fun c => !(pyIsDigit c)), pyIsDigit c = false := by
      intro c hc
      have := List.mem_takeWhile_imp hc
      simpa using this
    have ht2 : ∀ c ∈ s2.takeWhile (fun c => !(pyIsDigit c)), pyIsDigit c = false := by
      intro c hc
      have := List.mem_takeWhile_imp hc
      simpa using this
    by_cases hr1 : (s1.dropWhile (fun c => !(pyIsDigit c))).isEmpty = true
    · have hr2 : (s2.dropWhile (fun c => !(pyIsDigit c))).isEmpty = true := by
        rw [List.isEmpty_iff] at hr1 ⊢
        rw [← List.length_eq_zero, ← hlen, List.length_eq_zero]
        exact hr1
      unfold natural_sort_key
      rw [reSplitDigits_eq s1, reSplitDigits_eq s2, if_pos hr1, if_pos hr2,
        List.map_singleton, List.map_singleton, toTok_text _ ht1, toTok_text _ ht2, htake]
    · have hr2 : ¬ (s2.dropWhile (fun c => !(pyIsDigit c))).isEmpty = true := by
        rw [List.isEmpty_iff] at hr1 ⊢
        rw [← List.length_eq_zero, ← hlen, List.length_eq_zero]
        exact hr1
      obtain ⟨c1, rest1, hdd1, hdig1⟩ := reSplit_rest_head s1 hr1
      obtain ⟨c2, rest2, hdd2, hdig2⟩ := reSplit_rest_head s2 hr2
      have hdne1 : ¬ ((s1.dropWhile (fun c => !(pyIsDigit c))).takeWhile pyIsDigit).isEmpty
          = true := by
        rw [hdd1, List.takeWhile_cons, if_pos hdig1]
        simp
      have hdne2 : ¬ ((s2.dropWhile (fun c => !(pyIsDigit c))).takeWhile pyIsDigit).isEmpty
          = true := by
        rw [hdd2, List.takeWhile_cons, if_pos hdig2]
        simp
      have hd12 : lowerCodes ((s1.dropWhile (fun c => !(pyIsDigit c))).takeWhile pyIsDigit) =
          lowerCodes ((s2.dropWhile (fun c => !(pyIsDigit c))).takeWhile pyIsDigit) := by
        rw [lowerCodes_takeWhile_digit, lowerCodes_takeWhile_digit, hdrop]
      have hnum : toTok ((s1.dropWhile (fun c => !(pyIsDigit c))).takeWhile pyIsDigit) =
          toTok ((s2.dropWhile (fun c => !(pyIsDigit c))).takeWhile pyIsDigit) := by
        rw [toTok_num _ hdne1 (fun x hx => List.mem_takeWhile_imp hx),
          toTok_num _ hdne2 (fun x hx => List.mem_takeWhile_imp hx),
          digitsVal_eq_of_lowerCodes _ _ (fun x hx => List.mem_takeWhile_imp hx)
            (fun x hx => List.mem_takeWhile_imp hx) hd12]
      have hrec : natural_sort_key
            ((s1.dropWhile (fun c => !(pyIsDigit c))).dropWhile pyIsDigit) =
          natural_sort_key ((s2.dropWhile (fun c => !(pyIsDigit c))).dropWhile pyIsDigit) := by
        apply ih
        · have := reSplit_step_lt s1 hr1
          omega
        · rw [lowerCodes_dropWhile_digit, lowerCodes_dropWhile_digit, hdrop]
      unfold natural_sort_key
      rw [reSplitDigits_eq s1, reSplitDigits_eq s2, if_neg hr1, if_neg hr2,
        List.map_cons, List.map_cons, List.map_cons, List.map_cons,
        toTok_text _ ht1, toTok_text _ ht2, htake, hnum]
      unfold natural_sort_key at hrec
      rw [hrec]

/-- C4 (amended): element-wise comparison of two `natural_sort_key` values is
always well-defined (the token types align positionally, so no `int`/`str`
comparison is reached); numeric tokens compare by integer value; text tokens
compare lexicographically; keys are case-insensitive (invariant under case
folding of the input); and the key of "img2.png" precedes the key of
"img10.png".  Equal keys do not imply equal strings — case and leading zeros
are collapsed (see `natural_sort_key_not_injective`). -/
theorem natural_sort_key_order :
    (∀ s1 s2 : List Char,
        (cmpKey (natural_sort_key s1) (natural_sort_key s2)).isSome = true)
    ∧ (∀ a b : ℕ, cmpTok (NTok.num a) (NTok.num b) = some (compare a b))
    ∧ (∀ t u : List ℕ, cmpTok (NTok.text t) (NTok.text u) = some (cmpCodes t u))
    ∧ (∀ s1 s2 : List Char, lowerCodes s1 = lowerCodes s2 →
        natural_sort_key s1 = natural_sort_key s2)
    ∧ cmpKey (natural_sort_key "img2.png".toList) (natural_sort_key "img10.png".toList)
        = some Ordering.lt := by
  refine ⟨?_, ?_, ?_, ?_, ?_⟩
  · intro s1 s2
    exact cmpKey_isSome_of_shapes _ (keyShape_natKey s1) _ (keyShape_natKey s2)
  · intro a b
    rfl
  · intro t u
    rfl
  · intro s1 s2 hl
    exact natKey_lower_congr s1.length s1 s2 le_rfl hl
  · decide

/-- C4 witness: the case-insensitivity conjunct applied to "Xy7" and "xY7". -/
theorem natural_sort_key_order_witness :
    natural_sort_key "Xy7".toList = natural_sort_key "xY7".toList :=
  natural_sort_key_order.2.2.2.1 "Xy7".toList "xY7".toList (by decide)

/-- C4 counterexample: two keys can be equal although the original strings
differ ("a2" and "A2"), so equality of keys does not imply equality of the
original strings. -/
theorem natural_sort_key_not_injective :
    natural_sort_key "a2".toList = natural_sort_key "A2".toList
    ∧ "a2" ≠ "A2" := by
  refine ⟨by decide, by decide⟩

/-- Inversion of the loop on an empty file list. -/
theorem pipelineLoop_nil_ok (imgDims : String → ℕ × ℕ) (cellW cellH k margin bboxH : ℕ)
    (label_images : Bool) (i counter pageNum : ℕ) (es : List Event) (fin : ℕ)
    (h : pipelineLoop imgDims cellW cellH k margin bboxH label_images [] i counter pageNum =
      Except.ok (es, fin)) :
    es = [] ∧ fin = pageNum := by
  simp only [pipelineLoop] at h
  rw [Except.ok.injEq, Prod.mk.injEq] at h
  exact ⟨h.1.symm, h.2.symm⟩

/-- Inversion of one successful iteration of the loop: the image is composed,
and exactly at a batch boundary (`(i + 1) % images_per_page == 0` or last
image) the page is saved as `temp_page_{page_number}.pdf` and appended. -/
theorem pipelineLoop_cons_ok (imgDims : String → ℕ × ℕ) (cellW cellH k margin bboxH : ℕ)
    (label_images : Bool) (f : String) (rest : List String) (i counter pageNum : ℕ)
    (es : List Event) (fin : ℕ)
    (h : pipelineLoop imgDims cellW cellH k margin bboxH label_images (f :: rest) i counter
        pageNum = Except.ok (es, fin)) :
    ∃ es',
      pipelineLoop imgDims cellW cellH k margin bboxH label_images rest (i + 1) (counter + 1)
          (if (i + 1) % k == 0 || rest.isEmpty then pageNum + 1 else pageNum) =
        Except.ok (es', fin)
      ∧ es = (if (i + 1) % k == 0 || rest.isEmpty then
          Event.composeImg f
              (if label_images then some ("Question " ++ Nat.repr counter) else none)
            :: Event.writeTemp (PyPath.rel (tempName pageNum))
            :: Event.mergerAppend (PyPath.rel (tempName pageNum)) :: es'
        else
          Event.composeImg f
              (if label_images then some ("Question " ++ Nat.repr counter) else none)
            :: es') := by
  simp only [pipelineLoop] at h
  split at h
  · exact absurd h (by simp)
  · split at h
    · rename_i hcond
      split at h
      · exact absurd h (by simp)
      · rename_i es' fin' heq
        rw [Except.ok.injEq, Prod.mk.injEq] at h
        obtain ⟨hes, hfin⟩ := h
        refine ⟨es', ?_, ?_⟩
        · rw [if_pos hcond, ← hfin]
          exact heq
        · rw [if_pos hcond, ← hes]
    · rename_i hcond
      split at h
      · exact absurd h (by simp)
      · rename_i es' fin' heq
        rw [Except.ok.injEq, Prod.mk.injEq] at h
        obtain ⟨hes, hfin⟩ := h
        refine ⟨es', ?_, ?_⟩
        · rw [if_neg hcond, ← hfin]
          exact heq
        · rw [if_neg hcond, ← hes]

/-- Every event of the loop is a composition or a temporary-page write/append
at a bare relative `temp_page_{n}.pdf` path. -/
theorem pipelineLoop_shape (imgDims : String → ℕ × ℕ) (cellW cellH k margin bboxH : ℕ)
    (label_images : Bool) :
    ∀ (l : List String) (i counter pageNum : ℕ) (es : List Event) (fin : ℕ),
      pipelineLoop imgDims cellW cellH k margin bboxH label_images l i counter pageNum =
        Except.ok (es, fin) →
      ∀ e ∈ es, (∃ f lab, e = Event.composeImg f lab)
        ∨ (∃ n, e = Event.writeTemp (PyPath.rel (tempName n)))
        ∨ (∃ n, e = Event.mergerAppend (PyPath.rel (tempName n))) := by
  intro l
  induction l with
  | nil =>
    intro i counter pageNum es fin h e he
    obtain ⟨hes, _⟩ := pipelineLoop_nil_ok imgDims cellW cellH k margin bboxH label_images
      i counter pageNum es fin h
    subst hes
    simp at he
  | cons f rest ih =>
    intro i counter pageNum es fin h e he
    obtain ⟨es', hrec, hes⟩ := pipelineLoop_cons_ok imgDims cellW cellH k margin bboxH
      label_images f rest i counter pageNum es fin h
    by_cases hcond : ((i + 1) % k == 0 || rest.isEmpty) = true
    · rw [if_pos hcond] at hrec hes
      subst hes
      simp only [List.mem_cons] at he
      rcases he with h1 | h1 | h1 | h1
      · exact Or.inl ⟨f, _, h1⟩
      · exact Or.inr (Or.inl ⟨pageNum, h1⟩)
      · exact Or.inr (Or.inr ⟨pageNum, h1⟩)
      · exact ih _ _ _ _ _ hrec e h1
    · rw [if_neg hcond] at hrec hes
      subst hes
      simp only [List.mem_cons] at he
      rcases he with h1 | h1
      · exact Or.inl ⟨f, _, h1⟩
      · exact ih _ _ _ _ _ hrec e h1

/-- Number of merger appends of a successful loop over a non-empty list
starting at index `i`: one per inner batch boundary plus one for the final
flush (the last image always saves a page; a boundary at the last image is
not counted twice, matching the `or` on line 129). -/
theorem pipelineLoop_count (imgDims : String → ℕ × ℕ) (cellW cellH k margin bboxH : ℕ)
    (label_images : Bool) :
    ∀ (l : List String) (i counter pageNum : ℕ) (es : List Event) (fin : ℕ),
      pipelineLoop imgDims cellW cellH k margin bboxH label_images l i counter pageNum =
        Except.ok (es, fin) → l ≠ [] →
      countMergerAppends es =
        (List.range' (i + 1) (l.length - 1)).countP (fun m => m % k == 0) + 1 := by
  intro l
  induction l with
  | nil =>
    intro _ _ _ _ _ _ hne
    exact absurd rfl hne
  | cons f rest ih =>
    intro i counter pageNum es fin h _
    obtain ⟨es', hrec, hes⟩ := pipelineLoop_cons_ok imgDims cellW cellH k margin bboxH
      label_images f rest i counter pageNum es fin h
    cases rest with
    | nil =>
      have hcond : ((i + 1) % k == 0 || ([] : List String).isEmpty) = true := by simp
      rw [if_pos hcond] at hrec hes
      obtain ⟨hes', _⟩ := pipelineLoop_nil_ok imgDims cellW cellH k margin bboxH label_images
        (i + 1) (counter + 1) (pageNum + 1) es' fin hrec
      subst hes'
      subst hes
      simp [countMergerAppends, List.countP_cons, isMergerAppend]
    | cons g rest' =>
      have hr : List.range' (i + 1) ((f :: g :: rest').length - 1) =
          (i + 1) :: List.range' (i + 1 + 1) ((g :: rest').length - 1) := by
        simp only [List.length_cons, Nat.add_sub_cancel]
        rw [List.range'_succ]
      rw [hr, List.countP_cons]
      by_cases hb : ((i + 1) % k == 0) = true
      · have hcond : ((i + 1) % k == 0 || (g :: rest').isEmpty) = true := by
          rw [Bool.or_eq_true]
          exact Or.inl hb
        rw [if_pos hcond] at hrec hes
        subst hes
        have hih := ih (i + 1) (counter + 1) (pageNum + 1) es' fin hrec (by simp)
        simp [countMergerAppends, List.countP_cons, isMergerAppend, hb] at hih ⊢
        omega
      · have hcond : ¬ ((i + 1) % k == 0 || (g :: rest').isEmpty) = true := by
          simp only [Bool.or_eq_true]
          push_neg
          refine ⟨hb, by simp⟩
        rw [if_neg hcond] at hrec hes
        subst hes
        have hih := ih (i + 1) (counter + 1) pageNum es' fin hrec (by simp)
        simp [countMergerAppends, List.countP_cons, isMergerAppend, hb] at hih ⊢
        omega

/-- The composition calls of a successful loop: the files in order, the
`j`-th (0-based) labelled `"Question {counter + j}"` when labelling is on —
the counter increments once per image and is never reset. -/
theorem pipelineLoop_labels (imgDims : String → ℕ × ℕ) (cellW cellH k margin bboxH : ℕ)
    (label_images : Bool) :
    ∀ (l : List String) (i counter pageNum : ℕ) (es : List Event) (fin : ℕ),
      pipelineLoop imgDims cellW cellH k margin bboxH label_images l i counter pageNum =
        Except.ok (es, fin) →
      composePairs es = l.zip ((List.range l.length).map (fun j =>
        if label_images then some ("Question " ++ Nat.repr (counter + j)) else none)) := by
  intro l
  induction l with
  | nil =>
    intro i counter pageNum es fin h
    obtain ⟨hes, _⟩ := pipelineLoop_nil_ok imgDims cellW cellH k margin bboxH label_images
      i counter pageNum es fin h
    subst hes
    rfl
  | cons f rest ih =>
    intro i counter pageNum es fin h
    obtain ⟨es', hrec, hes⟩ := pipelineLoop_cons_ok imgDims cellW cellH k margin bboxH
      label_images f rest i counter pageNum es fin h
    have hzip : (f :: rest).zip ((List.range (f :: rest).length).map (fun j =>
        if label_images then some ("Question " ++ Nat.repr (counter + j)) else none)) =
        (f, if label_images then some ("Question " ++ Nat.repr counter) else none)
          :: rest.zip ((List.range rest.length).map (fun j =>
            if label_images then some ("Question " ++ Nat.repr (counter + 1 + j)) else none)) := by
      rw [List.length_cons, List.range_succ_eq_map, List.map_cons, List.map_map,
        List.zip_cons_cons, Nat.add_zero]
      have hmap : List.map ((fun j =>
            if label_images then some ("Question " ++ Nat.repr (counter + j)) else none)
              ∘ Nat.succ) (List.range rest.length)
          = List.map (fun j =>
            if label_images then some ("Question " ++ Nat.repr (counter + 1 + j)) else none)
              (List.range rest.length) := by
        apply List.map_congr_left
        intro j _
        simp only [Function.comp_apply]
        have harith : counter + Nat.succ j = counter + 1 + j := by omega
        rw [harith]
      rw [hmap]
    by_cases hcond : ((i + 1) % k == 0 || rest.isEmpty) = true
    · rw [if_pos hcond] at hrec hes
      subst hes
      rw [hzip]
      simp only [composePairs, List.filterMap_cons]
      exact congrArg _ (ih (i + 1) (counter + 1) (pageNum + 1) es' fin hrec)
    · rw [if_neg hcond] at hrec hes
      subst hes
      rw [hzip]
      simp only [composePairs, List.filterMap_cons]
      exact congrArg _ (ih (i + 1) (counter + 1) pageNum es' fin hrec)

/-- Lines 85-87 of the source: with no recognised image in the listing the
function only prints and returns; no file is written. -/
theorem images_to_pdf_empty_trace (listing : List String) (imgDims : String → ℕ × ℕ)
    (ctime : String → ℕ) (directory : String) (k : ℕ) (dm : Bool) (m : ℕ) (lb st : Bool)
    (bboxH : ℕ) (hne : (listing.filter hasImageExt).isEmpty = true) :
    images_to_pdf listing imgDims ctime directory k dm m lb st bboxH =
      Except.ok [Event.printMsg "No images found in the directory."] := by
  simp only [images_to_pdf]
  rw [if_pos hne]

/-- With at least one image and `images_per_page = 0`, the run dies on
`A4_PAGE_SIZE[1] // images_per_page` (line 96). -/
theorem images_to_pdf_zero_div (listing : List String) (imgDims : String → ℕ × ℕ)
    (ctime : String → ℕ) (directory : String) (dm : Bool) (m : ℕ) (lb st : Bool)
    (bboxH : ℕ) (hne : ¬ (listing.filter hasImageExt).isEmpty = true) :
    images_to_pdf listing imgDims ctime directory 0 dm m lb st bboxH =
      Except.error PyErr.zeroDivision := by
  simp only [images_to_pdf]
  rw [if_neg hne, if_pos trivial]

/-- Inversion of a successful non-empty run: the trace is the loop events
followed by the output/cleanup/deletion events. -/
theorem images_to_pdf_ok_inv (listing : List String) (imgDims : String → ℕ × ℕ)
    (ctime : String → ℕ) (directory : String) (k : ℕ) (dm : Bool) (m : ℕ) (lb st : Bool)
    (bboxH : ℕ) (es : List Event)
    (hne : ¬ (listing.filter hasImageExt).isEmpty = true) (hk : ¬ k = 0)
    (h : images_to_pdf listing imgDims ctime directory k dm m lb st bboxH = Except.ok es) :
    ∃ es0 finalPage,
      pipelineLoop imgDims 595 (842 / k) k m bboxH lb
          (sortedImages (listing.filter hasImageExt) ctime st) 0 1 1 =
        Except.ok (es0, finalPage)
      ∧ es = es0 ++ postEvents directory dm
          (sortedImages (listing.filter hasImageExt) ctime st) finalPage := by
  simp only [images_to_pdf] at h
  rw [if_neg hne, if_neg hk] at h
  split at h
  · exact absurd h (by simp)
  · rename_i es0 finalPage heq
    rw [Except.ok.injEq] at h
    exact ⟨es0, finalPage, heq, h.symm⟩

/-- The post-loop events append no page to the merger. -/
theorem countMergerAppends_postEvents (directory : String) (dm : Bool)
    (sorted : List String) (finalPage : ℕ) :
    countMergerAppends (postEvents directory dm sorted finalPage) = 0 := by
  unfold postEvents countMergerAppends
  cases dm <;>
    simp [List.countP_cons, List.countP_append, List.countP_map, isMergerAppend,
      Function.comp, List.countP_false]

/-- The length of the sorted image list equals the number of images. -/
theorem sortedImages_length (images : List String) (ctime : String → ℕ) (st : Bool) :
    (sortedImages images ctime st).length = images.length := by
  unfold sortedImages
  split
  · exact List.length_insertionSort _ _
  · exact List.length_insertionSort _ _

/-- Counting the multiples of `k` among `1 .. n` computes `n / k`. -/
theorem countP_range'_mod (k : ℕ) : ∀ n : ℕ,
    (List.range' 1 n).countP (fun m => m % k == 0) = n / k := by
  intro n
  induction n with
  | zero => simp
  | succ n ihn =>
    rw [List.range'_concat, List.countP_append, ihn, Nat.succ_div]
    simp only [one_mul]
    have h1 : List.countP (fun m => m % k == 0) [1 + n] = if k ∣ (n + 1) then 1 else 0 := by
      by_cases hdvd : k ∣ (n + 1)
      · have hmod : (1 + n) % k = 0 := by
          rw [Nat.add_comm]
          exact (Nat.dvd_iff_mod_eq_zero).mp hdvd
        simp [List.countP_cons, hmod, hdvd]
      · have hmod : ¬ (1 + n) % k = 0 := by
          rw [Nat.add_comm]
          intro h0
          exact hdvd ((Nat.dvd_iff_mod_eq_zero).mpr h0)
        simp [List.countP_cons, hmod, hdvd]
    rw [h1]

/-- C1: for a successful run over `N ≥ 1` recognised images with
`images_per_page = k ≥ 1`, exactly `⌈N / k⌉ = (N + k - 1) / k` one-page
artifacts are appended to the merger, so the output PDF has that many pages
(the last page may hold fewer than `k` cells). -/
theorem images_to_pdf_page_count (listing : List String) (imgDims : String → ℕ × ℕ)
    (ctime : String → ℕ) (directory : String) (k : ℕ) (dm : Bool) (m : ℕ) (lb st : Bool)
    (bboxH : ℕ) (es : List Event)
    (hk : 1 ≤ k) (hN : 1 ≤ (listing.filter hasImageExt).length)
    (h : images_to_pdf listing imgDims ctime directory k dm m lb st bboxH = Except.ok es) :
    countMergerAppends es = ((listing.filter hasImageExt).length + k - 1) / k := by
  have hne : ¬ (listing.filter hasImageExt).isEmpty = true := by
    rw [List.isEmpty_iff]
    intro h0
    rw [h0] at hN
    simp at hN
  obtain ⟨es0, finalPage, hloop, hes⟩ := images_to_pdf_ok_inv listing imgDims ctime directory
    k dm m lb st bboxH es hne (by omega) h
  subst hes
  have hsortlen := sortedImages_length (listing.filter hasImageExt) ctime st
  have hsortne : sortedImages (listing.filter hasImageExt) ctime st ≠ [] := by
    intro h0
    rw [h0] at hsortlen
    simp at hsortlen
    omega
  have hcount := pipelineLoop_count imgDims 595 (842 / k) k m bboxH lb _ 0 1 1 es0 finalPage
    hloop hsortne
  rw [hsortlen] at hcount
  have happ : countMergerAppends (es0 ++ postEvents directory dm
      (sortedImages (listing.filter hasImageExt) ctime st) finalPage) =
      countMergerAppends es0 := by
    unfold countMergerAppends
    rw [List.countP_append]
    have h0 := countMergerAppends_postEvents directory dm
      (sortedImages (listing.filter hasImageExt) ctime st) finalPage
    unfold countMergerAppends at h0
    omega
  rw [happ, hcount, countP_range'_mod k ((listing.filter hasImageExt).length - 1)]
  obtain ⟨n', hn'⟩ : ∃ n', (listing.filter hasImageExt).length = n' + 1 :=
    ⟨(listing.filter hasImageExt).length - 1, by omega⟩
  rw [hn']
  have harith1 : n' + 1 - 1 = n' := by omega
  have harith2 : n' + 1 + k - 1 = n' + k := by omega
  rw [harith1, harith2, Nat.add_div_right n' (by omega)]

/-- C1 witness: a run over two recognised images with two images per page
yields one merger append, which is the ceiling of 2 / 2. -/
theorem images_to_pdf_page_count_witness :
    countMergerAppends exTrace1 =
      (((["b.png", "a.png", "c.txt"] : List String).filter hasImageExt).length + 2 - 1) / 2 :=
  images_to_pdf_page_count ["b.png", "a.png", "c.txt"] exDims exCtime "d" 2 false 0 false
    false 0 exTrace1 (by decide) (by decide) (by with_unfolding_all rfl)

/-- The post-loop events contain no composition. -/
theorem composePairs_postEvents (directory : String) (dm : Bool)
    (sorted : List String) (finalPage : ℕ) :
    composePairs (postEvents directory dm sorted finalPage) = [] := by
  unfold postEvents composePairs
  cases dm <;>
    simp [List.filterMap_cons, List.filterMap_append, List.filterMap_map, Function.comp]

/-- Sorting the empty image list yields the empty list. -/
theorem sortedImages_nil (ctime : String → ℕ) (st : Bool) :
    sortedImages [] ctime st = [] := by
  unfold sortedImages
  split <;> rfl

/-- C6: in a successful run with labelling on, the images are composed in
sorted order and the `i`-th image (1-based, across the whole run) receives the
label `"Question i"`: the counter starts at 1, increments once per image and
is never reset at page boundaries. -/
theorem images_to_pdf_labels (listing : List String) (imgDims : String → ℕ × ℕ)
    (ctime : String → ℕ) (directory : String) (k : ℕ) (dm : Bool) (m : ℕ) (st : Bool)
    (bboxH : ℕ) (es : List Event)
    (h : images_to_pdf listing imgDims ctime directory k dm m true st bboxH = Except.ok es) :
    composePairs es =
      (sortedImages (listing.filter hasImageExt) ctime st).zip
        ((List.range (sortedImages (listing.filter hasImageExt) ctime st).length).map
          (fun j => some ("Question " ++ Nat.repr (j + 1)))) := by
  by_cases hne : (listing.filter hasImageExt).isEmpty = true
  · rw [images_to_pdf_empty_trace listing imgDims ctime directory k dm m true st bboxH hne]
      at h
    rw [Except.ok.injEq] at h
    subst h
    rw [List.isEmpty_iff] at hne
    rw [hne, sortedImages_nil]
    rfl
  · have hk : ¬ k = 0 := by
      intro h0
      subst h0
      rw [images_to_pdf_zero_div listing imgDims ctime directory dm m true st bboxH hne] at h
      exact absurd h (by simp)
    obtain ⟨es0, finalPage, hloop, hes⟩ := images_to_pdf_ok_inv listing imgDims ctime
      directory k dm m true st bboxH es hne hk h
    subst hes
    have happ : composePairs (es0 ++ postEvents directory dm
        (sortedImages (listing.filter hasImageExt) ctime st) finalPage) =
        composePairs es0 := by
      unfold composePairs
      rw [List.filterMap_append]
      have h0 := composePairs_postEvents directory dm
        (sortedImages (listing.filter hasImageExt) ctime st) finalPage
      unfold composePairs at h0
      rw [h0, List.append_nil]
    rw [happ, pipelineLoop_labels imgDims 595 (842 / k) k m bboxH true _ 0 1 1 es0 finalPage
      hloop]
    congr 1
    apply List.map_congr_left
    intro j _
    rw [if_pos rfl]
    have harith : 1 + j = j + 1 := by omega
    rw [harith]

/-- C6 witness: a labelled run over two images, one per page. -/
theorem images_to_pdf_labels_witness :
    composePairs exTrace2 =
      (sortedImages ((["b.png", "a.png"] : List String).filter hasImageExt) exCtime
        false).zip
        ((List.range (sortedImages ((["b.png", "a.png"] : List String).filter hasImageExt)
          exCtime false).length).map (fun j => some ("Question " ++ Nat.repr (j + 1)))) :=
  images_to_pdf_labels ["b.png", "a.png"] exDims exCtime "d" 1 false 0 false 0 exTrace2
    (by with_unfolding_all rfl)

/-- With deletion requested, every sorted image is removed (lines 156-158),
at its joined path. -/
theorem removeFile_mem_postEvents (directory : String) (f : String)
    (sorted : List String) (finalPage : ℕ) (hf : f ∈ sorted) :
    Event.removeFile (PyPath.joined directory f) ∈
      postEvents directory true sorted finalPage := by
  unfold postEvents
  rw [if_pos rfl]
  apply List.mem_cons_of_mem
  apply List.mem_append_right
  apply List.mem_cons_of_mem
  apply List.mem_append_left
  exact List.mem_map.mpr ⟨f, hf, rfl⟩

/-- C7: in a successful run with `delete_images = true`, every originally
enumerated image file is removed at its joined path, and (when at least one
image exists) the whole trace splits around the write of
`combined_output.pdf` with no source-file removal before it: sources are
deleted only after the output PDF is fully written. -/
theorem images_to_pdf_delete_after_write (listing : List String)
    (imgDims : String → ℕ × ℕ) (ctime : String → ℕ) (directory : String) (k : ℕ)
    (m : ℕ) (lb st : Bool) (bboxH : ℕ) (es : List Event)
    (h : images_to_pdf listing imgDims ctime directory k true m lb st bboxH =
      Except.ok es) :
    (∀ f ∈ listing.filter hasImageExt,
        Event.removeFile (PyPath.joined directory f) ∈ es)
    ∧ (¬ (listing.filter hasImageExt).isEmpty = true →
        ∃ t1 t2,
          es = t1 ++ Event.writeOutput (PyPath.joined directory "combined_output.pdf") :: t2
          ∧ ∀ d g, Event.removeFile (PyPath.joined d g) ∉ t1) := by
  by_cases hne : (listing.filter hasImageExt).isEmpty = true
  · constructor
    · intro f hf
      rw [List.isEmpty_iff] at hne
      rw [hne] at hf
      simp at hf
    · intro h0
      exact absurd hne h0
  · have hk : ¬ k = 0 := by
      intro h0
      subst h0
      rw [images_to_pdf_zero_div listing imgDims ctime directory true m lb st bboxH hne] at h
      exact absurd h (by simp)
    obtain ⟨es0, finalPage, hloop, hes⟩ := images_to_pdf_ok_inv listing imgDims ctime
      directory k true m lb st bboxH es hne hk h
    subst hes
    constructor
    · intro f hf
      have hfs : f ∈ sortedImages (listing.filter hasImageExt) ctime st := by
        unfold sortedImages
        split
        · exact ((List.perm_insertionSort _ _).mem_iff).mpr hf
        · exact ((List.perm_insertionSort _ _).mem_iff).mpr hf
      rw [List.mem_append]
      exact Or.inr (removeFile_mem_postEvents directory f _ finalPage hfs)
    · intro _
      refine ⟨es0,
        (List.range' 1 (finalPage - 1)).map
            (fun n => Event.removeFile (PyPath.rel (tempName n)))
          ++ Event.printMsg ("PDF created successfully at: " ++ directory
              ++ "/combined_output.pdf")
            :: ((sortedImages (listing.filter hasImageExt) ctime st).map
                  (fun f => Event.removeFile (PyPath.joined directory f))
              ++ [Event.printMsg "Original images have been deleted."]), ?_, ?_⟩
      · unfold postEvents
        rw [if_pos rfl]
      · intro d g hmem
        rcases pipelineLoop_shape imgDims 595 (842 / k) k m bboxH lb _ 0 1 1 es0 finalPage
          hloop _ hmem with ⟨f', lab, he⟩ | ⟨n, he⟩ | ⟨n, he⟩ <;> simp at he

/-- C7 witness: a deleting run over two images, one per page. -/
theorem images_to_pdf_delete_after_write_witness :
    (∀ f ∈ (["b.png", "a.png"] : List String).filter hasImageExt,
        Event.removeFile (PyPath.joined "d" f) ∈ exTrace3)
    ∧ (¬ ((["b.png", "a.png"] : List String).filter hasImageExt).isEmpty = true →
        ∃ t1 t2,
          exTrace3 = t1 ++ Event.writeOutput (PyPath.joined "d" "combined_output.pdf") :: t2
          ∧ ∀ d g, Event.removeFile (PyPath.joined d g) ∉ t1) :=
  images_to_pdf_delete_after_write ["b.png", "a.png"] exDims exCtime "d" 1 0 false false 0
    exTrace3 (by with_unfolding_all rfl)

/-- C8: a listing with no recognised image extension makes `images_to_pdf`
print a message and return normally: no error, no output PDF, no temporary
artifact — the trace is the single print event. -/
theorem images_to_pdf_no_images (listing : List String) (imgDims : String → ℕ × ℕ)
    (ctime : String → ℕ) (directory : String) (k : ℕ) (dm : Bool) (m : ℕ) (lb st : Bool)
    (bboxH : ℕ) (hne : listing.filter hasImageExt = []) :
    images_to_pdf listing imgDims ctime directory k dm m lb st bboxH =
      Except.ok [Event.printMsg "No images found in the directory."] :=
  images_to_pdf_empty_trace listing imgDims ctime directory k dm m lb st bboxH
    (by rw [List.isEmpty_iff]; exact hne)

/-- C8 witness: a directory containing only `notes.txt`. -/
theorem images_to_pdf_no_images_witness :
    images_to_pdf ["notes.txt"] exDims exCtime "d" 1 false 0 false false 0 =
      Except.ok [Event.printMsg "No images found in the directory."] :=
  images_to_pdf_no_images ["notes.txt"] exDims exCtime "d" 1 false 0 false false 0
    (by decide)

/-- Classification of the post-loop events. -/
theorem postEvents_mem_inv (directory : String) (dm : Bool) (sorted : List String)
    (finalPage : ℕ) (e : Event) (he : e ∈ postEvents directory dm sorted finalPage) :
    e = Event.writeOutput (PyPath.joined directory "combined_output.pdf")
    ∨ (∃ n, e = Event.removeFile (PyPath.rel (tempName n)))
    ∨ (∃ g, e = Event.removeFile (PyPath.joined directory g))
    ∨ (∃ msg, e = Event.printMsg msg) := by
  unfold postEvents at he
  simp only [List.mem_cons, List.mem_append, List.mem_map] at he
  rcases he with he | he
  · exact Or.inl he
  · rcases he with ⟨n, _, he⟩ | he
    · exact Or.inr (Or.inl ⟨n, he.symm⟩)
    · rcases he with he | he
      · exact Or.inr (Or.inr (Or.inr ⟨_, he⟩))
      · cases dm with
        | false => simp at he
        | true =>
          rw [if_pos rfl] at he
          simp only [List.mem_append, List.mem_map, List.mem_singleton] at he
          rcases he with ⟨g, _, he⟩ | he
          · exact Or.inr (Or.inr (Or.inl ⟨g, he.symm⟩))
          · exact Or.inr (Or.inr (Or.inr ⟨_, he⟩))

/-- C9: in every successful run the temporary page artifacts are written,
appended and removed at bare relative paths `temp_page_{n}.pdf` (resolved
against the process working directory, not the target directory), while the
only write into the target directory is `combined_output.pdf`; every removal
is either such a relative temporary or a source image joined to the target
directory. -/
theorem images_to_pdf_temp_paths (listing : List String) (imgDims : String → ℕ × ℕ)
    (ctime : String → ℕ) (directory : String) (k : ℕ) (dm : Bool) (m : ℕ) (lb st : Bool)
    (bboxH : ℕ) (es : List Event)
    (h : images_to_pdf listing imgDims ctime directory k dm m lb st bboxH = Except.ok es) :
    (∀ p, Event.writeTemp p ∈ es → ∃ n, p = PyPath.rel (tempName n))
    ∧ (∀ p, Event.mergerAppend p ∈ es → ∃ n, p = PyPath.rel (tempName n))
    ∧ (∀ p, Event.removeFile p ∈ es →
        (∃ n, p = PyPath.rel (tempName n)) ∨ ∃ g, p = PyPath.joined directory g)
    ∧ (∀ p, Event.writeOutput p ∈ es →
        p = PyPath.joined directory "combined_output.pdf") := by
  by_cases hne : (listing.filter hasImageExt).isEmpty = true
  · rw [images_to_pdf_empty_trace listing imgDims ctime directory k dm m lb st bboxH hne]
      at h
    rw [Except.ok.injEq] at h
    subst h
    refine ⟨?_, ?_, ?_, ?_⟩ <;> intro p hp <;> simp at hp
  · have hk : ¬ k = 0 := by
      intro h0
      subst h0
      rw [images_to_pdf_zero_div listing imgDims ctime directory dm m lb st bboxH hne] at h
      exact absurd h (by simp)
    obtain ⟨es0, finalPage, hloop, hes⟩ := images_to_pdf_ok_inv listing imgDims ctime
      directory k dm m lb st bboxH es hne hk h
    subst hes
    have hshape := pipelineLoop_shape imgDims 595 (842 / k) k m bboxH lb _ 0 1 1 es0
      finalPage hloop
    refine ⟨?_, ?_, ?_, ?_⟩ <;> intro p hp <;> rw [List.mem_append] at hp
    · rcases hp with hp | hp
      · rcases hshape _ hp with ⟨f', lab, he⟩ | ⟨n, he⟩ | ⟨n, he⟩ <;> simp at he
        · exact ⟨_, he⟩
      · rcases postEvents_mem_inv directory dm _ finalPage _ hp with he | ⟨n, he⟩
          | ⟨g, he⟩ | ⟨msg, he⟩ <;> simp at he
    · rcases hp with hp | hp
      · rcases hshape _ hp with ⟨f', lab, he⟩ | ⟨n, he⟩ | ⟨n, he⟩ <;> simp at he
        · exact ⟨_, he⟩
      · rcases postEvents_mem_inv directory dm _ finalPage _ hp with he | ⟨n, he⟩
          | ⟨g, he⟩ | ⟨msg, he⟩ <;> simp at he
    · rcases hp with hp | hp
      · rcases hshape _ hp with ⟨f', lab, he⟩ | ⟨n, he⟩ | ⟨n, he⟩ <;> simp at he
      · rcases postEvents_mem_inv directory dm _ finalPage _ hp with he | ⟨n, he⟩
          | ⟨g, he⟩ | ⟨msg, he⟩ <;> simp at he
        · exact Or.inl ⟨n, he⟩
        · exact Or.inr ⟨g, he⟩
    · rcases hp with hp | hp
      · rcases hshape _ hp with ⟨f', lab, he⟩ | ⟨n, he⟩ | ⟨n, he⟩ <;> simp at he
      · rcases postEvents_mem_inv directory dm _ finalPage _ hp with he | ⟨n, he⟩
          | ⟨g, he⟩ | ⟨msg, he⟩ <;> simp at he
        · exact he

/-- C9 witness: a deleting run over three images, two per page. -/
theorem images_to_pdf_temp_paths_witness :
    (∀ p, Event.writeTemp p ∈ exTrace4 → ∃ n, p = PyPath.rel (tempName n))
    ∧ (∀ p, Event.mergerAppend p ∈ exTrace4 → ∃ n, p = PyPath.rel (tempName n))
    ∧ (∀ p, Event.removeFile p ∈ exTrace4 →
        (∃ n, p = PyPath.rel (tempName n)) ∨ ∃ g, p = PyPath.joined "dir" g)
    ∧ (∀ p, Event.writeOutput p ∈ exTrace4 →
        p = PyPath.joined "dir" "combined_output.pdf") :=
  images_to_pdf_temp_paths ["a2.png", "a10.png", "a1.png"] exDims exCtime "dir" 2 true 3
    false false 0 exTrace4 (by with_unfolding_all rfl)

/-- C10: calling `images_to_pdf` programmatically with `images_per_page = 0`
on a directory with at least one recognised image fails with a
division-by-zero error at the per-image page height (line 96) — no validation
exists inside the function; the `images_per_page ≥ 1` check lives only in the
interactive CLI glue (lines 179-187), which falls back to the default 1. -/
theorem images_to_pdf_div_zero_cli :
    (∀ (listing : List String) (imgDims : String → ℕ × ℕ) (ctime : String → ℕ)
        (directory : String) (dm : Bool) (m : ℕ) (lb st : Bool) (bboxH : ℕ),
      listing.filter hasImageExt ≠ [] →
      images_to_pdf listing imgDims ctime directory 0 dm m lb st bboxH =
        Except.error PyErr.zeroDivision)
    ∧ (∀ s : String, 1 ≤ cliImagesPerPage s) := by
  constructor
  · intro listing imgDims ctime directory dm m lb st bboxH hne
    apply images_to_pdf_zero_div
    rw [List.isEmpty_iff]
    exact hne
  · intro s
    unfold cliImagesPerPage
    cases hp : pyInt? s with
    | none => simp
    | some v =>
      simp only
      split
      · omega
      · omega

/-- C10 witness: the zero-division conjunct at a one-image directory, and the
CLI fallback at the non-numeric answer "abc". -/
theorem images_to_pdf_div_zero_cli_witness :
    images_to_pdf ["a.png"] exDims exCtime "d" 0 false 0 false false 0 =
      Except.error PyErr.zeroDivision
    ∧ 1 ≤ cliImagesPerPage "abc" :=
  ⟨images_to_pdf_div_zero_cli.1 ["a.png"] exDims exCtime "d" false 0 false false 0
      (by decide),
    images_to_pdf_div_zero_cli.2 "abc"⟩
